import Mathlib

/-!
# Verification of the Dedalus protocol adapter and ReAct agent loop

Shallow embedding of the core of the `ariadne` repository:

* `DedalusLanguageModel.ts` — finish-reason resolution, non-streaming response
  translation (`makeResponse`), the streaming tool-call delta accumulator
  (`makeStreamResponse`), message preparation (`prepareMessages`) and tool /
  tool-choice translation (`prepareTools`);
* `DedalusClient.ts` — the terminal truncation of the decoded chunk stream
  (`createChatCompletionStream`);
* `AgentRunner.ts` — the multi-turn ReAct loop (`generateText`,
  `shouldTerminate`, `excludeFinishParts`).

Machinery that lives outside the sources at hand (the secure JSON parser
`Tool.unsafeSecureJsonParse`, the `Prompt` splicing helpers and the derivation
of a response finish reason from its parts) is modelled from the written
specification; each such definition carries a doc comment starting with
`Modelled from the spec:`.
-/

namespace Ariadne

/-! ## JSON values -/

/-- JSON values as produced by parsing tool-call argument strings.
Numbers are restricted to integers, which covers every argument payload the
adapter is exercised with here. -/
inductive Json where
  | null : Json
  | bool (b : Bool) : Json
  | num (n : Int) : Json
  | str (s : String) : Json
  | arr (elements : List Json) : Json
  | obj (fields : List (String × Json)) : Json

mutual

/-- All object keys occurring anywhere inside a JSON value. -/
def jsonKeys : Json → List String
  | .obj fields => jsonKeysFields fields
  | .arr elements => jsonKeysList elements
  | _ => []

/-- Keys of every element of a JSON array. -/
def jsonKeysList : List Json → List String
  | [] => []
  | v :: rest => jsonKeys v ++ jsonKeysList rest

/-- Keys of an object field list: each field name plus the keys nested in
its value. -/
def jsonKeysFields : List (String × Json) → List String
  | [] => []
  | (k, v) :: rest => k :: (jsonKeys v ++ jsonKeysFields rest)

end

/-! ## Secure JSON parsing

`Tool.unsafeSecureJsonParse` is referenced by `DedalusLanguageModel.ts` but its
implementation is not among the sources at hand, so it is modelled from the
spec below. -/

/-- Whitespace skipping for the JSON parser. -/
def skipWs : List Char → List Char
  | c :: rest =>
    if c = ' ' ∨ c = '\n' ∨ c = '\t' ∨ c = '\r' then skipWs rest else c :: rest
  | [] => []

/-- Parse the remainder of a JSON string literal (the opening quote already
consumed), returning the decoded characters and the rest of the input. -/
def parseStringChars : List Char → Option (List Char × List Char)
  | '"' :: rest => some ([], rest)
  | '\\' :: e :: rest =>
    let decoded : Option Char :=
      if e = '"' then some '"'
      else if e = '\\' then some '\\'
      else if e = '/' then some '/'
      else if e = 'n' then some '\n'
      else if e = 't' then some '\t'
      else if e = 'r' then some '\r'
      else none
    match decoded with
    | some c => (parseStringChars rest).map (fun p => (c :: p.1, p.2))
    | none => none
  | c :: rest => (parseStringChars rest).map (fun p => (c :: p.1, p.2))
  | [] => none

/-- Split a leading run of decimal digits from the input. -/
def spanDigits : List Char → List Char × List Char
  | c :: rest =>
    if c.isDigit then
      let p := spanDigits rest
      (c :: p.1, p.2)
    else ([], c :: rest)
  | [] => ([], [])

/-- Numeric value of a list of decimal digit characters. -/
def digitsToNat : List Char → Nat → Nat
  | [], acc => acc
  | c :: rest, acc => digitsToNat rest (acc * 10 + (c.toNat - '0'.toNat))

mutual

/-- Fuel-indexed JSON value parser. -/
def parseJsonVal : Nat → List Char → Option (Json × List Char)
  | 0, _ => none
  | fuel + 1, input =>
    match skipWs input with
    | 'n' :: 'u' :: 'l' :: 'l' :: rest => some (.null, rest)
    | 't' :: 'r' :: 'u' :: 'e' :: rest => some (.bool true, rest)
    | 'f' :: 'a' :: 'l' :: 's' :: 'e' :: rest => some (.bool false, rest)
    | '"' :: rest =>
      (parseStringChars rest).map (fun p => (.str (String.mk p.1), p.2))
    | '[' :: rest =>
      (match skipWs rest with
       | ']' :: rest2 => some (.arr [], rest2)
       | other =>
         (parseJsonElems fuel other).map (fun p => (Json.arr p.1, p.2)))
    | '\x7b' :: rest =>
      (match skipWs rest with
       | '\x7d' :: rest2 => some (.obj [], rest2)
       | other =>
         (parseJsonFields fuel other).map (fun p => (Json.obj p.1, p.2)))
    | '-' :: rest =>
      (match spanDigits rest with
       | ([], _) => none
       | (ds, rest2) => some (.num (-(digitsToNat ds 0 : Int)), rest2))
    | c :: rest =>
      if c.isDigit then
        (match spanDigits (c :: rest) with
         | (ds, rest2) => some (.num (digitsToNat ds 0 : Int), rest2))
      else none
    | [] => none

/-- Parse one or more comma-separated JSON array elements followed by a
closing bracket. -/
def parseJsonElems : Nat → List Char → Option (List Json × List Char)
  | 0, _ => none
  | fuel + 1, input =>
    match parseJsonVal fuel input with
    | none => none
    | some (v, rest) =>
      match skipWs rest with
      | ',' :: rest2 =>
        (parseJsonElems fuel rest2).map (fun p => (v :: p.1, p.2))
      | ']' :: rest2 => some ([v], rest2)
      | _ => none

/-- Parse one or more comma-separated JSON object fields followed by a
closing brace. -/
def parseJsonFields : Nat → List Char → Option (List (String × Json) × List Char)
  | 0, _ => none
  | fuel + 1, input =>
    match skipWs input with
    | '"' :: rest =>
      (match parseStringChars rest with
       | none => none
       | some (key, rest2) =>
         match skipWs rest2 with
         | ':' :: rest3 =>
           (match parseJsonVal fuel rest3 with
            | none => none
            | some (v, rest4) =>
              match skipWs rest4 with
              | ',' :: rest5 =>
                (parseJsonFields fuel rest5).map
                  (fun p => ((String.mk key, v) :: p.1, p.2))
              | '\x7d' :: rest5 => some ([(String.mk key, v)], rest5)
              | _ => none)
         | _ => none)
    | _ => none

end

/-- Object key names rejected by the secure JSON parser. -/
def isForbiddenKeyName (k : String) : Bool :=
  k = "__proto__" || k = "constructor" || k = "prototype"

/-- Modelled from the spec: `Tool.unsafeSecureJsonParse` (its implementation,
in `Tool.ts`, is not among the sources at hand).  Parses a JSON document and
rejects any value containing a prototype-polluting object key (`__proto__`,
`constructor`, `prototype`); any parse failure is reported as an error. -/
def unsafeSecureJsonParse (s : String) : Except String Json :=
  match parseJsonVal (s.data.length + 1) s.data with
  | none => .error "Invalid JSON"
  | some (v, rest) =>
    if (skipWs rest).isEmpty then
      if (jsonKeys v).any isForbiddenKeyName then
        .error "JSON contains a forbidden prototype-polluting key"
      else .ok v
    else .error "Unexpected trailing characters after JSON value"

/-- Whether a tool-call arguments string parses to a JSON value containing
`__proto__` as an object key. -/
def argsHasProtoKey (s : String) : Bool :=
  match parseJsonVal (s.data.length + 1) s.data with
  | some (v, _) => decide ("__proto__" ∈ jsonKeys v)
  | none => false

/-! ## Finish reasons -/

/-- Canonical finish reasons of the `Response` model. -/
inductive FinishReason where
  | stop
  | length
  | contentFilter
  | toolCalls
  | error
  | unknown
deriving DecidableEq

/-- The wire finish reasons admitted by the schema
`Generated.ChoiceFinishReasonEnum` (both for non-streaming choices and for
streaming chunk choices). -/
inductive WireFinishReason where
  | stop
  | length
  | tool_calls
  | content_filter
  | function_call
deriving DecidableEq

/-- The literal wire string of a schema-valid finish reason. -/
def WireFinishReason.encode : WireFinishReason → String
  | .stop => "stop"
  | .length => "length"
  | .tool_calls => "tool_calls"
  | .content_filter => "content_filter"
  | .function_call => "function_call"

/-- `resolveFinishReason` from `DedalusLanguageModel.ts`: converts a wire
`finish_reason` (a string, possibly null) into a canonical finish reason.
The final default mirrors the JavaScript truthiness test
`finishReason ? "unknown" : "stop"`, under which the empty string also maps
to `stop`. -/
def resolveFinishReason (finishReason : Option String) (hasToolCalls : Bool) :
    FinishReason :=
  if hasToolCalls then .toolCalls
  else
    match finishReason with
    | some "stop" => .stop
    | some "length" => .length
    | some "content_filter" => .contentFilter
    | some "tool_calls" => .toolCalls
    | some "function_call" => .toolCalls
    | some other => if other.isEmpty then .stop else .unknown
    | none => .stop

/-- The finish-reason resolution exactly as the specification words it:
tool calls present force `tool-calls`; otherwise the five known wire strings
are mapped, any other non-null reason is `unknown`, and null is `stop`. -/
def specResolveFinishReason (finishReason : Option String) (hasToolCalls : Bool) :
    FinishReason :=
  if hasToolCalls then .toolCalls
  else
    match finishReason with
    | some "stop" => .stop
    | some "length" => .length
    | some "content_filter" => .contentFilter
    | some "tool_calls" => .toolCalls
    | some "function_call" => .toolCalls
    | some _ => .unknown
    | none => .stop

/-! ## Canonical response parts -/

/-- Token usage statistics of a canonical `finish` part; absence means
"not reported". -/
structure Usage where
  inputTokens : Option Nat
  outputTokens : Option Nat
  totalTokens : Option Nat
  reasoningTokens : Option Nat
  cachedInputTokens : Option Nat

/-- Wire usage block shared by responses and terminal stream chunks. -/
structure WireUsage where
  prompt_tokens : Nat
  completion_tokens : Nat
  total_tokens : Nat
  reasoning_tokens : Option Nat
  cached_tokens : Option Nat

/-- Canonical usage carried by a `finish` part, read from an optional wire
usage block exactly as `makeResponse` / `makeStreamResponse` do. -/
def usageOf : Option WireUsage → Usage
  | some u =>
    { inputTokens := some u.prompt_tokens
      outputTokens := some u.completion_tokens
      totalTokens := some u.total_tokens
      reasoningTokens := u.reasoning_tokens
      cachedInputTokens := u.cached_tokens }
  | none =>
    { inputTokens := none, outputTokens := none, totalTokens := none
      reasoningTokens := none, cachedInputTokens := none }

/-- Canonical response parts (`Response.PartEncoded`).  A refusal is carried
in the `refusal` field of a `text` part, mirroring the
`metadata.dedalus.refusal` annotation the adapter attaches to the empty text
part it emits for refusals. -/
inductive Part where
  | responseMetadata (id modelId : String) (created : Int)
  | text (text : String) (refusal : Option String)
  | source (id url title : String) (startIndex endIndex : Option Int)
  | toolCall (id name : String) (params : Json) (providerExecuted : Bool)
  | toolResult (id : String) (result : Json) (isFailure : Bool)
  | reasoning (text : String)
  | finish (reason : FinishReason) (usage : Usage)

/-- Whether a part is a `finish` part. -/
def Part.isFinish : Part → Bool
  | .finish _ _ => true
  | _ => false

/-! ## Wire response model (non-streaming) -/

/-- A wire tool call of a non-streaming choice message: either a native
`function` call or a `custom` (MCP-style) call carrying a raw input string. -/
inductive WireToolCall where
  | function (id name arguments : String)
  | custom (id name input : String)

/-- The raw arguments string of a wire tool call. -/
def WireToolCall.argString : WireToolCall → String
  | .function _ _ arguments => arguments
  | .custom _ _ input => input

/-- A `url_citation` annotation of a choice message. -/
structure WireUrlCitation where
  url : String
  title : String
  start_index : Option Int
  end_index : Option Int

/-- A non-streaming choice message.  Optional wire arrays that the adapter
treats as absent-or-iterable are modelled as plain lists, with `[]` for
absent. -/
structure WireChoiceMessage where
  content : Option String
  refusal : Option String
  tool_calls : List WireToolCall
  annotations : List WireUrlCitation

/-- A non-streaming choice. -/
structure WireChoice where
  message : WireChoiceMessage
  finish_reason : Option WireFinishReason

/-- A decoded non-streaming chat completion response. -/
structure WireResponse where
  id : String
  created : Int
  model : String
  choices : List WireChoice
  usage : Option WireUsage
  tools_executed : List String

/-! ## AiError -/

/-- The error taxonomy of the adapter (`AiError`), restricted to the data the
claims inspect. -/
inductive AiError where
  | malformedInput (module method description : String)
  | malformedOutput (module method description : String)
  | httpRequestError (module method description : String)
  | httpResponseError (module method description : String)

/-- Whether a computation failed with `MalformedOutput`. -/
def isMalformedOutputFailure {α : Type} : Except AiError α → Bool
  | .error (.malformedOutput _ _ _) => true
  | _ => false

/-- Whether a computation failed with `MalformedInput`. -/
def isMalformedInputFailure {α : Type} : Except AiError α → Bool
  | .error (.malformedInput _ _ _) => true
  | _ => false

/-! ## Non-streaming response translation (`makeResponse`) -/

/-- Translate one wire tool call into a canonical `tool-call` part, securely
parsing its argument string; a parse failure is a `MalformedOutput`. -/
def convertToolCall (tc : WireToolCall) : Except AiError Part :=
  match tc with
  | .function id name arguments =>
    match unsafeSecureJsonParse arguments with
    | .ok params => .ok (.toolCall id name params false)
    | .error _ =>
      .error (.malformedOutput "DedalusLanguageModel" "makeResponse"
        ("Failed to securely parse tool call parameters for tool " ++ name ++
          ":\nParameters: " ++ arguments))
  | .custom id name input =>
    match unsafeSecureJsonParse input with
    | .ok params => .ok (.toolCall id name params false)
    | .error _ =>
      .error (.malformedOutput "DedalusLanguageModel" "makeResponse"
        ("Failed to securely parse custom tool call input for tool " ++ name ++
          ":\nInput: " ++ input))

/-- Translate the wire tool calls of a choice message in order, stopping at
the first failure. -/
def convertToolCalls : List WireToolCall → Except AiError (List Part)
  | [] => .ok []
  | tc :: rest =>
    match convertToolCall tc with
    | .error e => .error e
    | .ok p =>
      match convertToolCalls rest with
      | .error e => .error e
      | .ok ps => .ok (p :: ps)

/-- One `source` part per `url_citation` annotation, with generated ids
(`IdGenerator` is modelled as a deterministic counter). -/
def annotationSourceParts : List WireUrlCitation → Nat → List Part × Nat
  | [], seed => ([], seed)
  | ann :: rest, seed =>
    let (parts, seed2) := annotationSourceParts rest (seed + 1)
    ((Part.source ("id-" ++ toString seed) ann.url ann.title
        ann.start_index ann.end_index) :: parts, seed2)

/-- Synthesized `tool-call` parts for server-executed (MCP) tool names, with
generated ids and empty params. -/
def executedToolParts : List String → Nat → List Part × Nat
  | [], seed => ([], seed)
  | name :: rest, seed =>
    let (parts, seed2) := executedToolParts rest (seed + 1)
    ((Part.toolCall ("id-" ++ toString seed) name (.obj []) true) :: parts,
      seed2)

/-- `makeResponse` from `DedalusLanguageModel.ts`: translate a decoded
non-streaming response into canonical parts.  `seed` stands for the
`IdGenerator` state. -/
def makeResponse (response : WireResponse) (seed : Nat) :
    Except AiError (List Part) :=
  let metaPart : Part := .responseMetadata response.id response.model
    response.created
  match response.choices.head? with
  | none =>
    let (execParts, _) := executedToolParts response.tools_executed seed
    .ok (metaPart :: execParts)
  | some choice =>
    let message := choice.message
    let textParts : List Part :=
      match message.content with
      | some t => [.text t none]
      | none => []
    let refusalParts : List Part :=
      match message.refusal with
      | some r => [.text "" (some r)]
      | none => []
    let (sourceParts, seed2) := annotationSourceParts message.annotations seed
    match convertToolCalls message.tool_calls with
    | .error e => .error e
    | .ok tcParts =>
      let hasToolCalls := decide (0 < message.tool_calls.length)
      let finishPart : Part := .finish
        (resolveFinishReason (choice.finish_reason.map WireFinishReason.encode)
          hasToolCalls)
        (usageOf response.usage)
      let (execParts, _) := executedToolParts response.tools_executed seed2
      .ok (metaPart :: (textParts ++ refusalParts ++ sourceParts ++ tcParts ++
        [finishPart] ++ execParts))

/-! ## Streaming chunk model -/

/-- A `tool_calls` delta entry of a streaming chunk, flattened: `fname` and
`farguments` are the optional `function.name` / `function.arguments`
fragments. -/
structure ToolCallDelta where
  index : Nat
  id : Option String
  fname : Option String
  farguments : Option String

/-- The delta of a streaming chunk choice. -/
structure ChunkDelta where
  content : Option String
  tool_calls : List ToolCallDelta

/-- A streaming chunk choice. -/
structure ChunkChoice where
  delta : ChunkDelta
  finish_reason : Option WireFinishReason

/-- A decoded streaming chat completion chunk. -/
structure ChatCompletionChunk where
  id : String
  created : Int
  model : String
  choices : List ChunkChoice
  usage : Option WireUsage

/-- Canonical stream events (`Response.StreamPartEncoded`). -/
inductive StreamPart where
  | responseMetadata (id modelId : String) (created : Int)
  | textDelta (id delta : String)
  | toolParamsStart (id name : String)
  | toolParamsDelta (id delta : String)
  | toolParamsEnd (id : String)
  | toolCall (id name : String) (params : Json)
  | finish (reason : FinishReason) (usage : Usage)

/-! ## Streaming accumulator (`makeStreamResponse`) -/

/-- A tool call being reconstructed from deltas, keyed by its stream
`index`. -/
structure ToolCallEntry where
  id : String
  name : String
  arguments : String

/-- The `index → entry` map of tool calls under construction, as an
insertion-ordered association list (matching JavaScript `Map` iteration
order). -/
abbrev ToolCallMap := List (Nat × ToolCallEntry)

/-- Look up an entry by index. -/
def mapGet (m : ToolCallMap) (k : Nat) : Option ToolCallEntry :=
  match m with
  | [] => none
  | (k2, e) :: rest => if k2 = k then some e else mapGet rest k

/-- Insert or replace an entry, keeping the insertion position of an existing
key (JavaScript `Map.set` semantics). -/
def mapSet (m : ToolCallMap) (k : Nat) (e : ToolCallEntry) : ToolCallMap :=
  match m with
  | [] => [(k, e)]
  | (k2, e2) :: rest =>
    if k2 = k then (k, e) :: rest else (k2, e2) :: mapSet rest k e

/-- JavaScript truthiness of an optional string: present and non-empty. -/
def optTruthy : Option String → Bool
  | some s => !s.isEmpty
  | none => false

/-- The value of an optional string, defaulting to the empty string
(`?? ""`). -/
def optStr : Option String → String
  | some s => s
  | none => ""

/-- Mutable state of one streaming accumulation. -/
structure StreamState where
  activeToolCalls : ToolCallMap
  hasEmittedMetadata : Bool
  hasToolCalls : Bool

/-- The state at the start of a stream. -/
def initialStreamState : StreamState :=
  { activeToolCalls := [], hasEmittedMetadata := false, hasToolCalls := false }

/-- Process one `tool_calls` delta entry: register a new accumulator entry and
emit `tool-params-start` when the delta carries an id, then append any
arguments fragment to the entry found for the delta's index, emitting
`tool-params-delta`. -/
def processToolCallDelta (m : ToolCallMap) (d : ToolCallDelta) :
    ToolCallMap × List StreamPart :=
  let (m1, startParts) :=
    if optTruthy d.id then
      let entry : ToolCallEntry :=
        { id := optStr d.id, name := optStr d.fname, arguments := "" }
      (mapSet m d.index entry,
        [StreamPart.toolParamsStart entry.id entry.name])
    else (m, ([] : List StreamPart))
  match mapGet m1 d.index with
  | none => (m1, startParts)
  | some e =>
    let e1 := if optTruthy d.fname then { e with name := optStr d.fname } else e
    if optTruthy d.farguments then
      let e2 := { e1 with arguments := e1.arguments ++ optStr d.farguments }
      (mapSet m1 d.index e2,
        startParts ++ [StreamPart.toolParamsDelta e1.id (optStr d.farguments)])
    else (mapSet m1 d.index e1, startParts)

/-- Process the `tool_calls` delta entries of one chunk in order. -/
def processToolCallDeltas (m : ToolCallMap) :
    List ToolCallDelta → ToolCallMap × List StreamPart
  | [] => (m, [])
  | d :: rest =>
    let (m1, parts1) := processToolCallDelta m d
    let (m2, parts2) := processToolCallDeltas m1 rest
    (m2, parts1 ++ parts2)

/-- At stream end, turn every still-open accumulator entry into a
`tool-params-end` event followed by a complete `tool-call` part, securely
parsing the buffered argument string; a parse failure is a
`MalformedOutput`. -/
def finalizeEntries : ToolCallMap → Except AiError (List StreamPart)
  | [] => .ok []
  | (_, e) :: rest =>
    match unsafeSecureJsonParse e.arguments with
    | .error _ =>
      .error (.malformedOutput "DedalusLanguageModel" "makeStreamResponse"
        ("Failed to securely parse tool call parameters for tool " ++ e.name ++
          ":\nParameters: " ++ e.arguments))
    | .ok params =>
      match finalizeEntries rest with
      | .error e2 => .error e2
      | .ok restParts =>
        .ok (StreamPart.toolParamsEnd e.id ::
          StreamPart.toolCall e.id e.name params :: restParts)

/-- Process one streaming chunk, returning the next state and the stream
events emitted for that chunk, mirroring the chunk handler of
`makeStreamResponse` in `DedalusLanguageModel.ts`. -/
def processChunk (s : StreamState) (chunk : ChatCompletionChunk) :
    Except AiError (StreamState × List StreamPart) :=
  let metaParts : List StreamPart :=
    if s.hasEmittedMetadata then []
    else [.responseMetadata chunk.id chunk.model chunk.created]
  let s1 := { s with hasEmittedMetadata := true }
  match chunk.choices.head? with
  | none => .ok (s1, metaParts)
  | some choice =>
    let textParts : List StreamPart :=
      match choice.delta.content with
      | some t => [.textDelta chunk.id t]
      | none => []
    let (m1, tcParts) :=
      processToolCallDeltas s1.activeToolCalls choice.delta.tool_calls
    match choice.finish_reason with
    | none =>
      .ok ({ s1 with activeToolCalls := m1 },
        metaParts ++ textParts ++ tcParts)
    | some fr =>
      match finalizeEntries m1 with
      | .error e => .error e
      | .ok finalParts =>
      let hasToolCalls := s1.hasToolCalls || !m1.isEmpty
      let finishPart : StreamPart := .finish
        (resolveFinishReason (some (WireFinishReason.encode fr)) hasToolCalls)
        (usageOf chunk.usage)
      .ok ({ s1 with activeToolCalls := [], hasToolCalls := hasToolCalls },
        metaParts ++ textParts ++ tcParts ++ finalParts ++ [finishPart])

/-- Fold `processChunk` over a chunk sequence, concatenating the emitted
events; the first failure aborts the stream. -/
def processChunks (s : StreamState) :
    List ChatCompletionChunk → Except AiError (List StreamPart)
  | [] => .ok []
  | chunk :: rest =>
    match processChunk s chunk with
    | .error e => .error e
    | .ok (s2, parts) =>
      match processChunks s2 rest with
      | .error e => .error e
      | .ok restParts => .ok (parts ++ restParts)

/-- The streaming accumulator of `makeStreamResponse`, as the event sequence
produced from a decoded chunk sequence. -/
def makeStreamResponseParts (chunks : List ChatCompletionChunk) :
    Except AiError (List StreamPart) :=
  processChunks initialStreamState chunks

/-! ## Stream truncation (`createChatCompletionStream`) -/

/-- `Stream.takeUntil` on lists: every element up to and including the first
one satisfying the predicate. -/
def takeUntil {α : Type} (p : α → Bool) : List α → List α
  | [] => []
  | x :: rest => if p x then [x] else x :: takeUntil p rest

/-- Whether some choice of a chunk carries a non-null `finish_reason`. -/
def chunkHasFinish (chunk : ChatCompletionChunk) : Bool :=
  chunk.choices.any (fun choice => choice.finish_reason.isSome)

/-- The truncation applied by `createChatCompletionStream` in
`DedalusClient.ts` to the decoded chunk stream before it reaches the
accumulator. -/
def createChatCompletionStreamChunks (chunks : List ChatCompletionChunk) :
    List ChatCompletionChunk :=
  takeUntil chunkHasFinish chunks

/-! ## JSON serialization (`JSON.stringify` for params and results) -/

/-- Escape a string for inclusion in a JSON document. -/
def jsonEscapeChar (c : Char) : List Char :=
  if c = '"' then ['\\', '"']
  else if c = '\\' then ['\\', '\\']
  else if c = '\n' then ['\\', 'n']
  else if c = '\t' then ['\\', 't']
  else if c = '\r' then ['\\', 'r']
  else [c]

/-- Escape every character of a string for JSON output. -/
def jsonEscape (s : String) : String :=
  String.mk (s.data.flatMap jsonEscapeChar)

mutual

/-- Serialize a JSON value (`JSON.stringify`). -/
def jsonStringify : Json → String
  | .null => "null"
  | .bool true => "true"
  | .bool false => "false"
  | .num n => toString n
  | .str s => "\"" ++ jsonEscape s ++ "\""
  | .arr elements => "[" ++ jsonStringifyList elements ++ "]"
  | .obj fields => "\x7b" ++ jsonStringifyFields fields ++ "\x7d"

/-- Serialize array elements, comma separated. -/
def jsonStringifyList : List Json → String
  | [] => ""
  | [v] => jsonStringify v
  | v :: rest => jsonStringify v ++ "," ++ jsonStringifyList rest

/-- Serialize object fields, comma separated. -/
def jsonStringifyFields : List (String × Json) → String
  | [] => ""
  | [(k, v)] => "\"" ++ jsonEscape k ++ "\":" ++ jsonStringify v
  | (k, v) :: rest =>
    "\"" ++ jsonEscape k ++ "\":" ++ jsonStringify v ++ "," ++
      jsonStringifyFields rest

end

/-! ## Tool and tool-choice translation (`prepareTools`) -/

/-- A tool of the caller's tool set.  `userDefined` distinguishes
user-defined tools from provider-defined ones (`Tool.isUserDefined` /
`Tool.isProviderDefined`); `parameters` stands for the JSON Schema derived
from the tool's parameter schema. -/
structure AiTool where
  name : String
  description : Option String
  parameters : Json
  userDefined : Bool

/-- The mode of a restrict-to-subset tool-choice policy. -/
inductive ToolChoiceMode where
  | auto
  | required
deriving DecidableEq

/-- The caller-side tool-choice policy, as consumed by `prepareTools`. -/
inductive ToolChoice where
  | auto
  | none
  | required
  | oneOf (names : List String) (mode : ToolChoiceMode)
  | tool (name : String)

/-- A wire `tools` entry (Chat Completions tool format). -/
structure ChatCompletionTool where
  name : String
  description : Option String
  parameters : Json
  strict : Bool

/-- The wire `tool_choice` field. -/
inductive WireToolChoice where
  | auto
  | none
  | required
  | function (name : String)

/-- The wire form of one user-defined tool. -/
def toWireTool (t : AiTool) : ChatCompletionTool :=
  { name := t.name, description := t.description, parameters := t.parameters
    strict := true }

/-- Convert the allowed tools in order: user-defined tools become wire
entries, a provider-defined tool is rejected with `MalformedInput`. -/
def convertAiTools : List AiTool → Except AiError (List ChatCompletionTool)
  | [] => .ok []
  | t :: rest =>
    if t.userDefined then
      match convertAiTools rest with
      | .error e => .error e
      | .ok ws => .ok (toWireTool t :: ws)
    else
      .error (.malformedInput "DedalusLanguageModel" "prepareTools"
        ("Provider-defined tools are not supported. Received: " ++ t.name))

/-- The tools surviving the tool-choice filter: a restrict-to-subset policy
keeps only the named tools, every other policy keeps them all. -/
def allowedToolsFor (tools : List AiTool) (toolChoice : ToolChoice) :
    List AiTool :=
  match toolChoice with
  | .oneOf names _ => tools.filter (fun t => names.contains t.name)
  | _ => tools

/-- The wire tool choice forced by a restrict-to-subset policy: `required`
or `auto` depending on the policy mode; no other policy sets one here. -/
def oneOfToolChoice : ToolChoice → Option WireToolChoice
  | .oneOf _ mode =>
    some (if mode = ToolChoiceMode.required then WireToolChoice.required
      else WireToolChoice.auto)
  | _ => none

/-- `prepareTools` from `DedalusLanguageModel.ts`: translate the tool set and
tool-choice policy into the wire `tools` and `tool_choice` fields (`none`
meaning the field is omitted). -/
def prepareTools (tools : List AiTool) (toolChoice : ToolChoice) :
    Except AiError (Option (List ChatCompletionTool) × Option WireToolChoice) :=
  if tools.isEmpty then .ok (none, none)
  else
    match convertAiTools (allowedToolsFor tools toolChoice) with
    | .error e => .error e
    | .ok wireTools =>
      let tc : Option WireToolChoice :=
        match toolChoice with
        | .none => some .none
        | .required => some .required
        | .tool name => some (.function name)
        | _ => oneOfToolChoice toolChoice
      .ok (some wireTools, tc)

/-! ## Prompt messages and message preparation (`prepareMessages`) -/

/-- A part of a user message, as consumed by `prepareMessages`. -/
inductive UserPart where
  | text (text : String)
  | file (mediaType : String)

/-- A part of an assistant message, as consumed by `prepareMessages`. -/
inductive AssistantPart where
  | text (text : String)
  | toolCall (id name : String) (params : Json) (providerExecuted : Bool)
  | reasoning (text : String)

/-- A `tool-result` part of a tool message. -/
structure ToolResultMsgPart where
  id : String
  result : Json

/-- A prompt message, shaped as `prepareMessages` consumes it. -/
inductive PromptMessage where
  | system (content : String)
  | user (content : List UserPart)
  | assistant (content : List AssistantPart)
  | tool (content : List ToolResultMsgPart)

/-- A wire chat message (Chat Completions message format). -/
inductive ChatMessage where
  | system (content : String)
  | user (content : String)
  | assistant (content : Option String)
      (tool_calls : List (String × String × String))
  | tool (tool_call_id content : String)

/-- Collect the text parts of a user message, failing with `MalformedInput`
on a file part. -/
def collectUserTexts : List UserPart → Except AiError (List String)
  | [] => .ok []
  | .text t :: rest =>
    match collectUserTexts rest with
    | .error e => .error e
    | .ok ts => .ok (t :: ts)
  | .file mediaType :: _ =>
    .error (.malformedInput "DedalusLanguageModel" "prepareMessages"
      ("File attachments are not yet supported. Received file with media type: "
        ++ mediaType))

/-- Collect the text fragments and the non-provider-executed tool calls of an
assistant message; tool-call params are serialized with `JSON.stringify`. -/
def collectAssistantContent (parts : List AssistantPart) :
    List String × List (String × String × String) :=
  match parts with
  | [] => ([], [])
  | p :: rest =>
    let (texts, toolCalls) := collectAssistantContent rest
    match p with
    | .text t => (t :: texts, toolCalls)
    | .toolCall id name params providerExecuted =>
      if providerExecuted then (texts, toolCalls)
      else (texts, (id, name, jsonStringify params) :: toolCalls)
    | .reasoning _ => (texts, toolCalls)

/-- The wire messages contributed by one prompt message. -/
def prepareOneMessage : PromptMessage → Except AiError (List ChatMessage)
  | .system content => .ok [ChatMessage.system content]
  | .user content =>
    match collectUserTexts content with
    | .error e => .error e
    | .ok texts => .ok [ChatMessage.user (String.intercalate "\n" texts)]
  | .assistant content =>
    let (texts, toolCalls) := collectAssistantContent content
    let contentStr : Option String :=
      if texts.isEmpty then none else some (String.intercalate "\n" texts)
    if !toolCalls.isEmpty then
      .ok [ChatMessage.assistant contentStr toolCalls]
    else
      match contentStr with
      | some c => .ok [ChatMessage.assistant (some c) []]
      | none => .ok []
  | .tool content =>
    .ok (content.map (fun p => ChatMessage.tool p.id (jsonStringify p.result)))

/-- `prepareMessages` from `DedalusLanguageModel.ts`: split the prompt into
wire chat messages. -/
def prepareMessages : List PromptMessage → Except AiError (List ChatMessage)
  | [] => .ok []
  | msg :: rest =>
    match prepareOneMessage msg with
    | .error e => .error e
    | .ok msgs =>
      match prepareMessages rest with
      | .error e => .error e
      | .ok restMsgs => .ok (msgs ++ restMsgs)

/-! ## Request building (`makeRequest`) -/

/-- The options a single generation call passes to the request builder;
routing and sampling configuration forwarded verbatim is omitted. -/
structure GenOptions where
  prompt : List PromptMessage
  tools : List AiTool
  toolChoice : ToolChoice

/-- The wire request, restricted to the fields the claims inspect. -/
structure WireRequest where
  messages : List ChatMessage
  tools : Option (List ChatCompletionTool)
  tool_choice : Option WireToolChoice

/-- `makeRequest`: build the wire request from the caller options, failing
fast before any transport interaction. -/
def makeRequest (options : GenOptions) : Except AiError WireRequest :=
  match prepareMessages options.prompt with
  | .error e => .error e
  | .ok messages =>
    match prepareTools options.tools options.toolChoice with
    | .error e => .error e
    | .ok (tools, toolChoice) =>
      .ok { messages, tools, tool_choice := toolChoice }

/-- Whether `generateText` hands a request to the transport capability: it
does exactly when `makeRequest` succeeded. -/
def generateTextInvokesTransport (options : GenOptions) : Bool :=
  match makeRequest options with
  | .ok _ => true
  | .error _ => false

/-! ## AgentRunner (ReAct loop) -/

/-- `shouldTerminate` from `AgentRunner.ts`: terminal finish reasons end the
loop, `tool-calls` continues it. -/
def shouldTerminate : FinishReason → Bool
  | .stop => true
  | .length => true
  | .contentFilter => true
  | .error => true
  | .unknown => true
  | .toolCalls => false

/-- `excludeFinishParts` from `AgentRunner.ts`: drop `finish` parts from a
turn's content. -/
def excludeFinishParts (content : List Part) : List Part :=
  content.filter (fun p => !p.isFinish)

/-- Modelled from the spec: the `finishReason` of a `GenerateTextResponse`
(derived in `LanguageModel.ts`, which is not among the sources at hand) — the
reason of the response's terminal `finish` part, `unknown` when the content
carries none. -/
def responseFinishReason (content : List Part) : FinishReason :=
  match content.reverse.find? Part.isFinish with
  | some (.finish reason _) => reason
  | _ => .unknown

/-- The conversation history threaded through the loop.  Only its ordering
behaviour matters to the loop; it is a list of prompt messages. -/
abbrev Prompt := List PromptMessage

/-- Modelled from the spec: `Prompt.merge` (`Prompt.ts` is not among the
sources at hand) — concatenation, preserving message order and never dropping
parts. -/
def promptMerge (a b : Prompt) : Prompt := List.append a b

/-- A response part viewed as an assistant-message part, when it is one. -/
def partToAssistantPart : Part → Option AssistantPart
  | .text t _ => some (.text t)
  | .toolCall id name params providerExecuted =>
    some (.toolCall id name params providerExecuted)
  | .reasoning t => some (.reasoning t)
  | _ => none

/-- A response part viewed as a tool-result message part, when it is one. -/
def partToToolResultPart : Part → Option ToolResultMsgPart
  | .toolResult id result _ => some { id := id, result := result }
  | _ => none

/-- Modelled from the spec: `Prompt.fromResponseParts` (`Prompt.ts` is not
among the sources at hand) — splice a turn's parts onto the history as new
messages: an assistant message carrying the turn's assistant-visible parts
and a tool message carrying its tool results. -/
def promptFromResponseParts (parts : List Part) : Prompt :=
  [PromptMessage.assistant (parts.filterMap partToAssistantPart),
    PromptMessage.tool (parts.filterMap partToToolResultPart)]

/-- The single-turn generation capability as the loop consumes it: from the
current history to the turn's content parts (the response's finish reason is
derived from the content). -/
abbrev Capability := Prompt → List Part

/-- The body of the `while (turns < maxTurns)` loop of `generateText` in
`AgentRunner.ts`, with the number of remaining turns as the recursion
measure.  Returns the number of capability invocations together with the
accumulated content. -/
def runReactTurns (cap : Capability) :
    Nat → Prompt → List Part → Nat → Nat × List Part
  | 0, _, allContent, calls => (calls, allContent)
  | remaining + 1, history, allContent, calls =>
    let content := cap history
    if shouldTerminate (responseFinishReason content) then
      (calls + 1, allContent ++ content)
    else
      runReactTurns cap remaining
        (promptMerge history (promptFromResponseParts content))
        (allContent ++ excludeFinishParts content) (calls + 1)

/-- `generateText` of the ReAct layer in `AgentRunner.ts`: run up to
`maxTurns` turns over the capability, starting from the caller's prompt. -/
def generateText (cap : Capability) (maxTurns : Nat) (prompt : Prompt) :
    Nat × List Part :=
  runReactTurns cap maxTurns prompt [] 0

/-- The content of the turn at which a run first reaches a terminating finish
reason, when that happens within the turn budget. -/
def naturalTerminal (cap : Capability) : Nat → Prompt → Option (List Part)
  | 0, _ => none
  | remaining + 1, history =>
    let content := cap history
    if shouldTerminate (responseFinishReason content) then some content
    else
      naturalTerminal cap remaining
        (promptMerge history (promptFromResponseParts content))

/-- The parts a run accumulates when every turn is non-terminating: each
turn's content with its `finish` parts excluded, in turn order. -/
def accumulatedNonTerminal (cap : Capability) : Nat → Prompt → List Part
  | 0, _ => []
  | remaining + 1, history =>
    let content := cap history
    excludeFinishParts content ++
      accumulatedNonTerminal cap remaining
        (promptMerge history (promptFromResponseParts content))

/-- Modelled from the spec: the externally visible finish reason of a run
that exhausts `maxTurns` — per the spec, the last seen `finish.reason`
remains the externally visible reason of the final result (no synthetic
`finish` is fabricated). -/
def lastSeenFinishReason (cap : Capability) :
    Nat → Prompt → FinishReason → FinishReason
  | 0, _, lastSeen => lastSeen
  | remaining + 1, history, _ =>
    let content := cap history
    lastSeenFinishReason cap remaining
      (promptMerge history (promptFromResponseParts content))
      (responseFinishReason content)

/-! ## Auxiliary predicates used by the theorems -/

/-- Whether a stream part is a `finish` event. -/
def StreamPart.isFinish : StreamPart → Bool
  | .finish _ _ => true
  | _ => false

/-- Whether a stream part is a complete `tool-call` part. -/
def StreamPart.isToolCall : StreamPart → Bool
  | .toolCall _ _ _ => true
  | _ => false

/-- Whether a stream part is `tool-params-start` for the given id. -/
def isToolParamsStartFor (id : String) : StreamPart → Bool
  | .toolParamsStart id2 _ => id2 = id
  | _ => false

/-- Whether a stream part is `tool-params-end` for the given id. -/
def isToolParamsEndFor (id : String) : StreamPart → Bool
  | .toolParamsEnd id2 => id2 = id
  | _ => false

/-- Whether a user part is a file attachment. -/
def UserPart.isFile : UserPart → Bool
  | .file _ => true
  | _ => false

/-- Whether a prompt message is a user message containing a file part. -/
def promptMessageHasFile : PromptMessage → Bool
  | .user content => content.any UserPart.isFile
  | _ => false

/-- Whether an error is a `MalformedInput`. -/
def AiError.isMalformedInput : AiError → Bool
  | .malformedInput _ _ _ => true
  | _ => false

/-- Whether an error is a `MalformedOutput`. -/
def AiError.isMalformedOutput : AiError → Bool
  | .malformedOutput _ _ _ => true
  | _ => false

/-- The tools of a generation call surviving its tool-choice filter. -/
def allowedToolsOf (options : GenOptions) : List AiTool :=
  allowedToolsFor options.tools options.toolChoice

/-! ## Concrete inputs used by the witnesses and the counterexample -/

/-- A response with a single plain-text choice finishing with `stop`. -/
def sampleResponse : WireResponse :=
  { id := "resp-1", created := 0, model := "model-1",
    choices := [{ message := { content := some "hi", refusal := none,
                               tool_calls := [], annotations := [] },
                  finish_reason := some .stop }],
    usage := none, tools_executed := [] }

/-- The first (only) choice of `sampleResponse`. -/
def sampleChoice : WireChoice :=
  { message := { content := some "hi", refusal := none, tool_calls := [],
                 annotations := [] },
    finish_reason := some .stop }

/-- The parts `makeResponse` produces for `sampleResponse`. -/
def sampleResponseParts : List Part :=
  [.responseMetadata "resp-1" "model-1" 0, .text "hi" none,
    .finish .stop (usageOf none)]

/-- A terminal stream chunk with no deltas and `finish_reason = stop`. -/
def sampleFinishChunk : ChatCompletionChunk :=
  { id := "chunk-9", created := 7, model := "model-1",
    choices := [{ delta := { content := none, tool_calls := [] },
                  finish_reason := some .stop }],
    usage := none }

/-- The first (only) choice of `sampleFinishChunk`. -/
def sampleFinishChunkChoice : ChunkChoice :=
  { delta := { content := none, tool_calls := [] },
    finish_reason := some .stop }

/-- A non-terminal chunk carrying a single tool-call delta. -/
def toolCallDeltaChunk (cid : String) (tc : ToolCallDelta) :
    ChatCompletionChunk :=
  { id := cid, created := 0, model := "model-1",
    choices := [{ delta := { content := none, tool_calls := [tc] },
                  finish_reason := none }],
    usage := none }

/-- The first delta of the spec's accumulation scenario: index 0, id `a`,
name `f`. -/
def deltaChunk1 : ChatCompletionChunk :=
  toolCallDeltaChunk "chunk-1"
    { index := 0, id := some "a", fname := some "f", farguments := none }

/-- The second delta: an arguments fragment for index 0. -/
def deltaChunk2 : ChatCompletionChunk :=
  toolCallDeltaChunk "chunk-2"
    { index := 0, id := none, fname := none,
      farguments := some "\x7b\"x\":" }

/-- The third delta: the closing arguments fragment for index 0. -/
def deltaChunk3 : ChatCompletionChunk :=
  toolCallDeltaChunk "chunk-3"
    { index := 0, id := none, fname := none, farguments := some "1\x7d" }

/-- A terminal chunk carrying the given non-null wire finish reason. -/
def finChunkWith (fr : WireFinishReason) : ChatCompletionChunk :=
  { id := "chunk-4", created := 0, model := "model-1",
    choices := [{ delta := { content := none, tool_calls := [] },
                  finish_reason := some fr }],
    usage := none }

/-- A capability whose every turn requests further tool calls. -/
def capToolCallsForever : Capability := fun _ =>
  [.toolCall "call-1" "tool" (.obj []) false,
    .toolResult "call-1" (.str "result") false,
    .finish .toolCalls (usageOf none)]

/-- A capability that stops on its first turn. -/
def capStopsFirst : Capability := fun _ =>
  [.text "done" none, .finish .stop (usageOf none)]

/-- A two-turn script: tool calls on the first turn (empty history), then a
final answer finishing with `stop`. -/
def capTwoTurn : Capability := fun history =>
  if history.isEmpty then
    [.toolCall "call-1" "tool" (.obj []) false,
      .toolResult "call-1" (.str "result") false,
      .finish .toolCalls (usageOf none)]
  else [.text "the answer" none, .finish .stop (usageOf none)]

/-- The terminal turn content of the `capTwoTurn` run. -/
def capTwoTurnTerminal : List Part :=
  [.text "the answer" none, .finish .stop (usageOf none)]

/-- A user-defined tool named `util`. -/
def toolUtil : AiTool :=
  { name := "util", description := none, parameters := .obj [],
    userDefined := true }

/-- A provider-defined tool named `prov`. -/
def toolProvider : AiTool :=
  { name := "prov", description := none, parameters := .obj [],
    userDefined := false }

/-- Options whose prompt carries a file part in a user message. -/
def fileOptions : GenOptions :=
  { prompt := [.user [.text "look", .file "image/png"]], tools := [],
    toolChoice := .auto }

/-- Options whose tool set carries a provider-defined tool that survives the
tool-choice filter. -/
def providerToolOptions : GenOptions :=
  { prompt := [.user [.text "hi"]], tools := [toolUtil, toolProvider],
    toolChoice := .auto }

/-- Options whose tool set contains a provider-defined tool that a
restrict-to-subset tool choice filters out: request building succeeds. -/
def filteredProviderOptions : GenOptions :=
  { prompt := [.user [.text "hi"]], tools := [toolUtil, toolProvider],
    toolChoice := .oneOf ["util"] .auto }

/-- A wire tool call whose arguments carry `__proto__` as an object key. -/
def protoWireToolCall : WireToolCall :=
  .function "call-1" "f" "\x7b\"__proto__\":1\x7d"

/-- A choice message holding only `protoWireToolCall`. -/
def protoMessage : WireChoiceMessage :=
  { content := none, refusal := none, tool_calls := [protoWireToolCall],
    annotations := [] }

/-- The first (only) choice of `protoResponse`. -/
def protoChoice : WireChoice :=
  { message := protoMessage, finish_reason := some .tool_calls }

/-- A response whose single tool call carries `__proto__` as an argument
object key. -/
def protoResponse : WireResponse :=
  { id := "resp-2", created := 0, model := "model-1",
    choices := [protoChoice], usage := none, tools_executed := [] }

/-- An accumulated entry whose buffered arguments carry `__proto__` as an
object key. -/
def protoEntry : ToolCallEntry :=
  { id := "a", name := "f", arguments := "\x7b\"__proto__\":1\x7d" }

/-- A stream state holding one accumulated entry whose buffered arguments
carry `__proto__` as an object key. -/
def protoStreamState : StreamState :=
  { activeToolCalls := [(0, protoEntry)],
    hasEmittedMetadata := true, hasToolCalls := false }

/-- A tool-call delta carrying no id, for an unregistered index. -/
def orphanDelta : ToolCallDelta :=
  { index := 0, id := none, fname := none, farguments := some "\x7b\"y\":2" }

/-- The events `processChunk` emits for `sampleFinishChunk` from the initial
state. -/
def sampleFinishChunkParts : List StreamPart :=
  [.responseMetadata "chunk-9" "model-1" 7, .finish .stop (usageOf none)]

/-- The state after processing `sampleFinishChunk` from the initial state. -/
def sampleFinishOutState : StreamState :=
  { activeToolCalls := [], hasEmittedMetadata := true, hasToolCalls := false }

/-! ## Helper lemmas -/

theorem resolve_eq_spec_on_valid (fr : Option WireFinishReason) (b : Bool) :
    resolveFinishReason (fr.map WireFinishReason.encode) b =
      specResolveFinishReason (fr.map WireFinishReason.encode) b := by
  cases fr with
  | none => cases b <;> rfl
  | some w => cases w <;> cases b <;> rfl

@[simp]
theorem isFinish_source (id url title : String) (a b : Option Int) :
    (Part.source id url title a b).isFinish = false := rfl

@[simp]
theorem isFinish_toolCall (id name : String) (p : Json) (e : Bool) :
    (Part.toolCall id name p e).isFinish = false := rfl

theorem annotationSourceParts_no_finish (l : List WireUrlCitation) (seed : Nat) :
    ((annotationSourceParts l seed).1).filter Part.isFinish = [] := by
  induction l generalizing seed with
  | nil => rfl
  | cons ann rest ih =>
    simp [annotationSourceParts, List.filter_cons, ih]

theorem executedToolParts_no_finish (l : List String) (seed : Nat) :
    ((executedToolParts l seed).1).filter Part.isFinish = [] := by
  induction l generalizing seed with
  | nil => rfl
  | cons name rest ih =>
    simp [executedToolParts, List.filter_cons, ih]

theorem convertToolCall_ok_not_finish (tc : WireToolCall) (p : Part)
    (h : convertToolCall tc = .ok p) : p.isFinish = false := by
  cases tc <;> simp only [convertToolCall] at h <;> split at h <;>
    cases h <;> rfl

theorem convertToolCalls_ok_no_finish (l : List WireToolCall)
    (ps : List Part) (h : convertToolCalls l = .ok ps) :
    ps.filter Part.isFinish = [] := by
  induction l generalizing ps with
  | nil =>
    simp only [convertToolCalls] at h
    cases h
    rfl
  | cons tc rest ih =>
    simp only [convertToolCalls] at h
    cases hc : convertToolCall tc with
    | error e => rw [hc] at h; cases h
    | ok p =>
      rw [hc] at h
      cases hr : convertToolCalls rest with
      | error e => rw [hr] at h; cases h
      | ok ps2 =>
        rw [hr] at h
        cases h
        simp [List.filter_cons, convertToolCall_ok_not_finish tc p hc, ih ps2 hr]

theorem makeResponse_finish_parts (response : WireResponse) (seed : Nat)
    (parts : List Part) (choice : WireChoice)
    (hchoice : response.choices.head? = some choice)
    (hok : makeResponse response seed = .ok parts) :
    parts.filter Part.isFinish =
      [Part.finish
        (specResolveFinishReason
          (choice.finish_reason.map WireFinishReason.encode)
          (decide (0 < choice.message.tool_calls.length)))
        (usageOf response.usage)] := by
  unfold makeResponse at hok
  rw [hchoice] at hok
  simp only at hok
  cases htc : convertToolCalls choice.message.tool_calls with
  | error e => rw [htc] at hok; cases hok
  | ok tcParts =>
    rw [htc] at hok
    simp only at hok
    cases hok
    rw [← resolve_eq_spec_on_valid]
    simp only [List.filter_cons, List.filter_append, Part.isFinish,
      annotationSourceParts_no_finish, executedToolParts_no_finish,
      convertToolCalls_ok_no_finish _ _ htc]
    cases choice.message.content <;> cases choice.message.refusal <;>
      simp [List.filter_cons, Part.isFinish, List.filter_append,
        annotationSourceParts_no_finish, executedToolParts_no_finish,
        convertToolCalls_ok_no_finish _ _ htc]

theorem processToolCallDelta_no_finish (m : ToolCallMap) (d : ToolCallDelta) :
    ((processToolCallDelta m d).2).filter StreamPart.isFinish = [] := by
  unfold processToolCallDelta
  by_cases h1 : optTruthy d.id <;>
    simp only [h1, if_true, if_false] <;>
    split <;>
    (try split) <;>
    simp [StreamPart.isFinish, List.filter_cons]

theorem processToolCallDeltas_no_finish (m : ToolCallMap)
    (ds : List ToolCallDelta) :
    ((processToolCallDeltas m ds).2).filter StreamPart.isFinish = [] := by
  induction ds generalizing m with
  | nil => rfl
  | cons d rest ih =>
    simp [processToolCallDeltas, List.filter_append,
      processToolCallDelta_no_finish, ih]

theorem finalizeEntries_ok_no_finish (m : ToolCallMap)
    (parts : List StreamPart) (h : finalizeEntries m = .ok parts) :
    parts.filter StreamPart.isFinish = [] := by
  induction m generalizing parts with
  | nil =>
    simp only [finalizeEntries] at h
    cases h
    rfl
  | cons kv rest ih =>
    obtain ⟨k, e⟩ := kv
    simp only [finalizeEntries] at h
    split at h
    · cases h
    · split at h
      · cases h
      · cases h
        simp [List.filter_cons, StreamPart.isFinish, ih _ (by assumption)]

theorem processChunk_finish_parts (s : StreamState)
    (chunk : ChatCompletionChunk) (choice : ChunkChoice)
    (fr : WireFinishReason) (s2 : StreamState) (parts : List StreamPart)
    (hchoice : chunk.choices.head? = some choice)
    (hfr : choice.finish_reason = some fr)
    (hok : processChunk s chunk = .ok (s2, parts)) :
    parts.filter StreamPart.isFinish =
      [StreamPart.finish
        (specResolveFinishReason (some (WireFinishReason.encode fr))
          (s.hasToolCalls ||
            !(processToolCallDeltas s.activeToolCalls
              choice.delta.tool_calls).1.isEmpty))
        (usageOf chunk.usage)] := by
  unfold processChunk at hok
  rw [hchoice] at hok
  simp only [hfr] at hok
  cases hfin : finalizeEntries
      (processToolCallDeltas s.activeToolCalls choice.delta.tool_calls).1 with
  | error e => rw [hfin] at hok; cases hok
  | ok finalParts =>
    rw [hfin] at hok
    simp only at hok
    cases hok
    have hres : resolveFinishReason (some fr.encode)
        (s.hasToolCalls ||
          !(processToolCallDeltas s.activeToolCalls
            choice.delta.tool_calls).1.isEmpty) =
        specResolveFinishReason (some fr.encode)
          (s.hasToolCalls ||
            !(processToolCallDeltas s.activeToolCalls
              choice.delta.tool_calls).1.isEmpty) := by
      simpa using resolve_eq_spec_on_valid (some fr)
        (s.hasToolCalls ||
          !(processToolCallDeltas s.activeToolCalls
            choice.delta.tool_calls).1.isEmpty)
    rw [List.filter_append, List.filter_append, List.filter_append,
      List.filter_append]
    rw [processToolCallDeltas_no_finish, finalizeEntries_ok_no_finish _ _ hfin]
    cases choice.delta.content <;>
      simp [StreamPart.isFinish, List.filter_cons, hres]

/-! ## Claim theorems -/

/-- C1: for every decoded response or terminal stream chunk, the canonical
finish reason is resolved exactly as the spec states: a response carrying at
least one tool call resolves to `tool-calls` regardless of the wire reason;
otherwise stop/length/content_filter/tool_calls/function_call map to
stop/length/content-filter/tool-calls/tool-calls, any other non-null wire
reason maps to `unknown`, and a null wire reason maps to `stop`.  The first
conjunct states this for `resolveFinishReason` over every schema-valid wire
reason; the second and third state that the single `finish` part emitted by
`makeResponse` (for a decoded response) and by `processChunk` (for a terminal
stream chunk) carries exactly that resolved reason, with tool-call presence
taken from the response's wire tool calls, respectively from the accumulated
stream entries. -/
theorem finish_reason_resolution :
    (∀ (fr : Option WireFinishReason) (hasToolCalls : Bool),
      resolveFinishReason (fr.map WireFinishReason.encode) hasToolCalls =
        specResolveFinishReason (fr.map WireFinishReason.encode) hasToolCalls)
    ∧ (∀ (response : WireResponse) (seed : Nat) (parts : List Part)
        (choice : WireChoice),
        response.choices.head? = some choice →
        makeResponse response seed = .ok parts →
        parts.filter Part.isFinish =
          [Part.finish
            (specResolveFinishReason
              (choice.finish_reason.map WireFinishReason.encode)
              (decide (0 < choice.message.tool_calls.length)))
            (usageOf response.usage)])
    ∧ (∀ (s : StreamState) (chunk : ChatCompletionChunk)
        (choice : ChunkChoice) (fr : WireFinishReason) (s2 : StreamState)
        (parts : List StreamPart),
        chunk.choices.head? = some choice →
        choice.finish_reason = some fr →
        processChunk s chunk = .ok (s2, parts) →
        parts.filter StreamPart.isFinish =
          [StreamPart.finish
            (specResolveFinishReason (some (WireFinishReason.encode fr))
              (s.hasToolCalls ||
                !(processToolCallDeltas s.activeToolCalls
                  choice.delta.tool_calls).1.isEmpty))
            (usageOf chunk.usage)]) :=
  ⟨resolve_eq_spec_on_valid,
    fun response seed parts choice h1 h2 =>
      makeResponse_finish_parts response seed parts choice h1 h2,
    fun s chunk choice fr s2 parts h1 h2 h3 =>
      processChunk_finish_parts s chunk choice fr s2 parts h1 h2 h3⟩

/-- C1 witness: the finish part of `sampleResponse` (a plain `stop` response)
and of `sampleFinishChunk` (a terminal chunk with no accumulated tool calls)
both resolve to `stop`. -/
theorem finish_reason_resolution_witness :
    (sampleResponseParts.filter Part.isFinish =
      [Part.finish FinishReason.stop (usageOf none)])
    ∧ (sampleFinishChunkParts.filter StreamPart.isFinish =
      [StreamPart.finish FinishReason.stop (usageOf none)]) :=
  ⟨finish_reason_resolution.2.1 sampleResponse 0 sampleResponseParts
      sampleChoice rfl rfl,
    finish_reason_resolution.2.2 initialStreamState sampleFinishChunk
      sampleFinishChunkChoice .stop sampleFinishOutState
      sampleFinishChunkParts rfl rfl rfl⟩

/-- C2: feeding the accumulator the deltas
`(index 0, id a, name f)`, `(index 0, arguments "\x7b\"x\":")`,
`(index 0, arguments "1\x7d")` followed by a chunk with any non-null
finish reason yields exactly one complete `tool-call` part — id `a`, name
`f`, params `\x7b x : 1 \x7d` — and exactly one
`tool-params-start`/`tool-params-end` pair for id `a`. -/
theorem stream_accumulator_single_tool_call (fr : WireFinishReason) :
    Except.map
      (fun parts =>
        (parts.filter StreamPart.isToolCall,
          parts.countP (isToolParamsStartFor "a"),
          parts.countP (isToolParamsEndFor "a")))
      (makeStreamResponseParts
        [deltaChunk1, deltaChunk2, deltaChunk3, finChunkWith fr]) =
    .ok ([StreamPart.toolCall "a" "f" (Json.obj [("x", Json.num 1)])], 1, 1) :=
  rfl

theorem excludeFinishParts_filter (l : List Part) :
    (excludeFinishParts l).filter Part.isFinish = [] := by
  induction l with
  | nil => rfl
  | cons p rest ih =>
    cases hp : p.isFinish <;>
      simp [excludeFinishParts, List.filter_cons, hp] at ih ⊢

theorem runReactTurns_calls (cap : Capability)
    (hall : ∀ h, responseFinishReason (cap h) = .toolCalls) :
    ∀ (n : Nat) (history : Prompt) (acc : List Part) (calls : Nat),
      (runReactTurns cap n history acc calls).1 = calls + n := by
  intro n
  induction n with
  | zero => intro history acc calls; rfl
  | succ m ih =>
    intro history acc calls
    simp only [runReactTurns, hall history, shouldTerminate,
      Bool.false_eq_true, if_false]
    rw [ih]
    omega

theorem runReactTurns_append_only (cap : Capability) :
    ∀ (n : Nat) (history : Prompt) (acc : List Part) (calls : Nat),
      ∃ rest, (runReactTurns cap n history acc calls).2 = acc ++ rest := by
  intro n
  induction n with
  | zero => intro history acc calls; exact ⟨[], by simp [runReactTurns]⟩
  | succ m ih =>
    intro history acc calls
    simp only [runReactTurns]
    cases hs : shouldTerminate (responseFinishReason (cap history))
    · simp only [Bool.false_eq_true, if_false]
      obtain ⟨rest, hrest⟩ := ih
        (promptMerge history (promptFromResponseParts (cap history)))
        (acc ++ excludeFinishParts (cap history)) (calls + 1)
      exact ⟨excludeFinishParts (cap history) ++ rest, by
        rw [hrest, List.append_assoc]⟩
    · exact ⟨cap history, by simp⟩

theorem runReactTurns_filter_of_natural (cap : Capability) :
    ∀ (n : Nat) (history : Prompt) (acc : List Part) (calls : Nat)
      (tc : List Part), naturalTerminal cap n history = some tc →
      acc.filter Part.isFinish = [] →
      ((runReactTurns cap n history acc calls).2).filter Part.isFinish =
        tc.filter Part.isFinish := by
  intro n
  induction n with
  | zero => intro history acc calls tc hterm; cases hterm
  | succ m ih =>
    intro history acc calls tc hterm hacc
    simp only [naturalTerminal] at hterm
    simp only [runReactTurns]
    cases hs : shouldTerminate (responseFinishReason (cap history))
    · rw [hs] at hterm
      simp only [Bool.false_eq_true, if_false] at hterm ⊢
      exact ih _ _ _ tc hterm
        (by simp [List.filter_append, hacc, excludeFinishParts_filter])
    · rw [hs] at hterm
      simp only [if_true] at hterm ⊢
      cases hterm
      simp [List.filter_append, hacc]

theorem runReactTurns_content_all_toolCalls (cap : Capability)
    (hall : ∀ h, responseFinishReason (cap h) = .toolCalls) :
    ∀ (n : Nat) (history : Prompt) (acc : List Part) (calls : Nat),
      (runReactTurns cap n history acc calls).2 =
        acc ++ accumulatedNonTerminal cap n history := by
  intro n
  induction n with
  | zero => intro history acc calls; simp [runReactTurns, accumulatedNonTerminal]
  | succ m ih =>
    intro history acc calls
    simp only [runReactTurns, accumulatedNonTerminal, hall history,
      shouldTerminate, Bool.false_eq_true, if_false]
    rw [ih]
    simp [List.append_assoc]

theorem accumulatedNonTerminal_no_finish (cap : Capability) :
    ∀ (n : Nat) (history : Prompt),
      (accumulatedNonTerminal cap n history).filter Part.isFinish = [] := by
  intro n
  induction n with
  | zero => intro history; rfl
  | succ m ih =>
    intro history
    simp [accumulatedNonTerminal, List.filter_append,
      excludeFinishParts_filter, ih]

theorem lastSeen_all_toolCalls (cap : Capability)
    (hall : ∀ h, responseFinishReason (cap h) = .toolCalls) :
    ∀ (n : Nat) (history : Prompt) (r : FinishReason), 1 ≤ n →
      lastSeenFinishReason cap n history r = .toolCalls := by
  intro n
  induction n with
  | zero => intro history r h; cases h
  | succ m ih =>
    intro history r _
    cases m with
    | zero => simp [lastSeenFinishReason, hall]
    | succ k =>
      simp only [lastSeenFinishReason]
      exact ih (promptMerge history (promptFromResponseParts (cap history)))
        (responseFinishReason (cap history)) (by omega)

/-- C3: if every turn of the capability reports finish reason `tool-calls`,
the `generateText` loop invokes the capability exactly `maxTurns` times; if
the first turn reports the terminating reason `stop`, the loop invokes the
capability exactly once, regardless of `maxTurns ≥ 1`. -/
theorem agent_loop_turn_budget (cap : Capability) (maxTurns : Nat)
    (prompt : Prompt) :
    ((∀ h, responseFinishReason (cap h) = .toolCalls) →
      (generateText cap maxTurns prompt).1 = maxTurns)
    ∧ (1 ≤ maxTurns → responseFinishReason (cap prompt) = .stop →
      (generateText cap maxTurns prompt).1 = 1) := by
  constructor
  · intro hall
    unfold generateText
    rw [runReactTurns_calls cap hall]
    omega
  · intro hpos hstop
    cases maxTurns with
    | zero => cases hpos
    | succ m =>
      unfold generateText
      simp [runReactTurns, hstop, shouldTerminate]

/-- C3 witness: a script that always asks for tools is invoked exactly 3
times with `maxTurns = 3`; a script that stops on turn 1 is invoked exactly
once. -/
theorem agent_loop_turn_budget_witness :
    (generateText capToolCallsForever 3 []).1 = 3 ∧
    (generateText capStopsFirst 3 []).1 = 1 :=
  ⟨(agent_loop_turn_budget capToolCallsForever 3 []).1 (fun _ => rfl),
    (agent_loop_turn_budget capStopsFirst 3 []).2 (by decide) rfl⟩

/-- C4: when a run reaches a natural terminating reason within the turn
budget, the final accumulated parts carry exactly the terminal turn's
`finish` parts (so exactly one `finish` part whenever the terminal turn has
exactly one), and accumulation is append-only: previously accumulated parts
are never removed or reordered. -/
theorem agent_loop_single_terminal_finish (cap : Capability) (maxTurns : Nat)
    (prompt : Prompt) (tc : List Part)
    (hterm : naturalTerminal cap maxTurns prompt = some tc) :
    ((generateText cap maxTurns prompt).2).filter Part.isFinish =
      tc.filter Part.isFinish
    ∧ ((tc.filter Part.isFinish).length = 1 →
      (((generateText cap maxTurns prompt).2).filter Part.isFinish).length = 1)
    ∧ (∀ (acc : List Part) (calls : Nat), ∃ rest,
      (runReactTurns cap maxTurns prompt acc calls).2 = acc ++ rest) := by
  have hf := runReactTurns_filter_of_natural cap maxTurns prompt [] 0 tc
    hterm rfl
  refine ⟨hf, fun hone => ?_,
    fun acc calls => runReactTurns_append_only cap maxTurns prompt acc calls⟩
  show (((runReactTurns cap maxTurns prompt [] 0).2).filter
    Part.isFinish).length = 1
  rw [hf]
  exact hone

/-- C4 witness: the two-turn script (turn 1 `tool-calls`, turn 2 `stop`)
accumulates exactly one `finish` part, the turn-2 `stop` one. -/
theorem agent_loop_single_terminal_finish_witness :
    ((generateText capTwoTurn 5 []).2).filter Part.isFinish =
      [Part.finish FinishReason.stop (usageOf none)] ∧
    (((generateText capTwoTurn 5 []).2).filter Part.isFinish).length = 1 :=
  have h := agent_loop_single_terminal_finish capTwoTurn 5 []
    capTwoTurnTerminal rfl
  ⟨h.1.trans rfl, h.2.1 rfl⟩

/-- C5: when every turn reports the non-terminating reason `tool-calls` and
the loop exits by exhausting `maxTurns`, it returns exactly the parts
accumulated across the turns (each turn's content with its `finish` parts
excluded), fabricates no synthetic `finish` part, and the last seen finish
reason — `tool-calls` — remains the externally visible finish reason of the
final result. -/
theorem agent_loop_exhaustion_keeps_accumulated (cap : Capability)
    (maxTurns : Nat) (prompt : Prompt)
    (hall : ∀ h, responseFinishReason (cap h) = .toolCalls)
    (hpos : 1 ≤ maxTurns) :
    (generateText cap maxTurns prompt).2 =
      accumulatedNonTerminal cap maxTurns prompt
    ∧ ((generateText cap maxTurns prompt).2).filter Part.isFinish = []
    ∧ lastSeenFinishReason cap maxTurns prompt .unknown = .toolCalls := by
  have hc := runReactTurns_content_all_toolCalls cap hall maxTurns prompt [] 0
  refine ⟨hc, ?_, lastSeen_all_toolCalls cap hall maxTurns prompt .unknown hpos⟩
  show ((runReactTurns cap maxTurns prompt [] 0).2).filter Part.isFinish = []
  rw [hc]
  simpa using accumulatedNonTerminal_no_finish cap maxTurns prompt

/-- C5 witness: with a script that always asks for tools and `maxTurns = 3`,
the run returns the accumulated non-terminal parts, carries no `finish`
part, and the externally visible reason stays `tool-calls`. -/
theorem agent_loop_exhaustion_keeps_accumulated_witness :
    (generateText capToolCallsForever 3 []).2 =
      accumulatedNonTerminal capToolCallsForever 3 []
    ∧ ((generateText capToolCallsForever 3 []).2).filter Part.isFinish = []
    ∧ lastSeenFinishReason capToolCallsForever 3 [] .unknown = .toolCalls :=
  agent_loop_exhaustion_keeps_accumulated capToolCallsForever 3 []
    (fun _ => rfl) (by decide)

theorem isMalformedInputFailure_error {α : Type} (e : AiError) :
    isMalformedInputFailure (.error e : Except AiError α) =
      e.isMalformedInput := by
  cases e <;> rfl

theorem collectUserTexts_fail_kind (content : List UserPart) (e : AiError)
    (h : collectUserTexts content = .error e) : e.isMalformedInput = true := by
  induction content generalizing e with
  | nil => cases h
  | cons p rest ih =>
    cases p with
    | text t =>
      simp only [collectUserTexts] at h
      cases hr : collectUserTexts rest with
      | error e2 => rw [hr] at h; cases h; exact ih _ hr
      | ok ts => rw [hr] at h; cases h
    | file mediaType =>
      simp only [collectUserTexts] at h
      cases h
      rfl

theorem collectUserTexts_file_fails (content : List UserPart)
    (h : content.any UserPart.isFile = true) :
    isMalformedInputFailure (collectUserTexts content) = true := by
  induction content with
  | nil => cases h
  | cons p rest ih =>
    cases p with
    | text t =>
      simp only [List.any_cons, UserPart.isFile, Bool.false_or] at h
      simp only [collectUserTexts]
      cases hr : collectUserTexts rest with
      | error e2 =>
        rw [hr] at ih
        exact ih h
      | ok ts => rw [hr] at ih; cases ih h
    | file mediaType => rfl

theorem prepareOneMessage_fail_kind (msg : PromptMessage) (e : AiError)
    (h : prepareOneMessage msg = .error e) : e.isMalformedInput = true := by
  cases msg with
  | system content => cases h
  | user content =>
    simp only [prepareOneMessage] at h
    cases hc : collectUserTexts content with
    | error e2 => rw [hc] at h; cases h; exact collectUserTexts_fail_kind _ _ hc
    | ok ts => rw [hc] at h; cases h
  | assistant content =>
    simp only [prepareOneMessage] at h
    split at h
    · cases h
    · split at h <;> cases h
  | tool content => cases h

theorem prepareOneMessage_file_fails (msg : PromptMessage)
    (h : promptMessageHasFile msg = true) :
    isMalformedInputFailure (prepareOneMessage msg) = true := by
  cases msg with
  | user content =>
    simp only [prepareOneMessage]
    cases hr : collectUserTexts content with
    | error e2 =>
      rw [isMalformedInputFailure_error]
      exact collectUserTexts_fail_kind content e2 hr
    | ok ts =>
      have hc := collectUserTexts_file_fails content h
      rw [hr] at hc
      cases hc
  | system content => cases h
  | assistant content => cases h
  | tool content => cases h

theorem prepareMessages_fail_kind (l : List PromptMessage) (e : AiError)
    (h : prepareMessages l = .error e) : e.isMalformedInput = true := by
  induction l generalizing e with
  | nil => cases h
  | cons msg rest ih =>
    simp only [prepareMessages] at h
    cases hm : prepareOneMessage msg with
    | error e2 =>
      rw [hm] at h; cases h; exact prepareOneMessage_fail_kind _ _ hm
    | ok msgs =>
      rw [hm] at h
      cases hr : prepareMessages rest with
      | error e2 => rw [hr] at h; cases h; exact ih _ hr
      | ok restMsgs => rw [hr] at h; cases h

theorem prepareMessages_file_fails (l : List PromptMessage)
    (h : l.any promptMessageHasFile = true) :
    isMalformedInputFailure (prepareMessages l) = true := by
  induction l with
  | nil => cases h
  | cons msg rest ih =>
    simp only [List.any_cons] at h
    simp only [prepareMessages]
    cases hm : prepareOneMessage msg with
    | error e2 =>
      rw [isMalformedInputFailure_error]
      exact prepareOneMessage_fail_kind _ _ hm
    | ok msgs =>
      have hnf : promptMessageHasFile msg = false := by
        cases hf : promptMessageHasFile msg
        · rfl
        · have := prepareOneMessage_file_fails msg hf
          rw [hm] at this
          cases this
      rw [hnf] at h
      simp only [Bool.false_or] at h
      cases hr : prepareMessages rest with
      | error e2 =>
        rw [isMalformedInputFailure_error]
        exact prepareMessages_fail_kind _ _ hr
      | ok restMsgs => rw [hr] at ih; cases ih h

theorem convertAiTools_fail_kind (l : List AiTool) (e : AiError)
    (h : convertAiTools l = .error e) : e.isMalformedInput = true := by
  induction l generalizing e with
  | nil => cases h
  | cons t rest ih =>
    simp only [convertAiTools] at h
    cases hu : t.userDefined with
    | true =>
      rw [hu] at h
      simp only [if_true] at h
      cases hr : convertAiTools rest with
      | error e2 => rw [hr] at h; cases h; exact ih _ hr
      | ok ws => rw [hr] at h; cases h
    | false =>
      rw [hu] at h
      simp only [Bool.false_eq_true, if_false] at h
      cases h
      rfl

theorem convertAiTools_provider_fails (l : List AiTool)
    (h : l.any (fun t => !t.userDefined) = true) :
    isMalformedInputFailure (convertAiTools l) = true := by
  induction l with
  | nil => cases h
  | cons t rest ih =>
    simp only [List.any_cons] at h
    simp only [convertAiTools]
    cases hu : t.userDefined with
    | true =>
      rw [hu] at h
      simp only [Bool.not_true, Bool.false_or] at h
      simp only [if_true]
      cases hr : convertAiTools rest with
      | error e2 =>
        rw [isMalformedInputFailure_error]
        exact convertAiTools_fail_kind _ _ hr
      | ok ws => rw [hr] at ih; cases ih h
    | false =>
      simp only [Bool.false_eq_true, if_false]
      rfl

theorem prepareTools_fail_kind (tools : List AiTool)
    (toolChoice : ToolChoice) (e : AiError)
    (h : prepareTools tools toolChoice = .error e) :
    e.isMalformedInput = true := by
  unfold prepareTools at h
  split at h
  · cases h
  · cases hc : convertAiTools (allowedToolsFor tools toolChoice) with
    | error e2 =>
      rw [hc] at h
      cases h
      exact convertAiTools_fail_kind _ _ hc
    | ok ws => rw [hc] at h; cases h

theorem prepareTools_provider_fails (tools : List AiTool)
    (toolChoice : ToolChoice)
    (h : (allowedToolsFor tools toolChoice).any (fun t => !t.userDefined) =
      true) :
    isMalformedInputFailure (prepareTools tools toolChoice) = true := by
  have hne : tools.isEmpty = false := by
    cases tools with
    | nil => cases toolChoice <;> simp [allowedToolsFor] at h
    | cons t rest => rfl
  unfold prepareTools
  rw [hne]
  simp only [Bool.false_eq_true, if_false]
  cases hc : convertAiTools (allowedToolsFor tools toolChoice) with
  | error e2 =>
    rw [isMalformedInputFailure_error]
    exact convertAiTools_fail_kind _ _ hc
  | ok ws =>
    have hp := convertAiTools_provider_fails _ h
    rw [hc] at hp
    cases hp

theorem makeRequest_file_fails (options : GenOptions)
    (h : options.prompt.any promptMessageHasFile = true) :
    isMalformedInputFailure (makeRequest options) = true := by
  unfold makeRequest
  have hp := prepareMessages_file_fails options.prompt h
  cases hm : prepareMessages options.prompt with
  | error e =>
    rw [hm] at hp
    rw [isMalformedInputFailure_error] at hp ⊢
    exact hp
  | ok msgs => rw [hm] at hp; cases hp

theorem makeRequest_provider_fails (options : GenOptions)
    (h : (allowedToolsOf options).any (fun t => !t.userDefined) = true) :
    isMalformedInputFailure (makeRequest options) = true := by
  unfold makeRequest
  cases hm : prepareMessages options.prompt with
  | error e =>
    rw [isMalformedInputFailure_error]
    exact prepareMessages_fail_kind _ _ hm
  | ok msgs =>
    have hp := prepareTools_provider_fails options.tools options.toolChoice h
    cases ht : prepareTools options.tools options.toolChoice with
    | error e =>
      rw [ht] at hp
      rw [isMalformedInputFailure_error] at hp ⊢
      exact hp
    | ok pair =>
      rw [ht] at hp
      cases hp

theorem makeRequest_fail_no_transport (options : GenOptions)
    (h : isMalformedInputFailure (makeRequest options) = true) :
    generateTextInvokesTransport options = false := by
  unfold generateTextInvokesTransport
  cases hm : makeRequest options with
  | error e => rfl
  | ok r => rw [hm] at h; cases h

/-- C6 (amended): a prompt carrying a file part in a user message makes
request building fail with `MalformedInput` before the transport capability
is ever invoked; likewise a tool set carrying a provider-defined tool that
survives the restrict-to-subset (oneOf) tool-choice filter.  (The amendment
restricts the provider-tool half to tools surviving the filter: a
provider-defined tool excluded by a `oneOf` restriction does not make
request building fail — see the counterexample.) -/
theorem malformed_input_fails_before_transport :
    (∀ options : GenOptions,
      options.prompt.any promptMessageHasFile = true →
      isMalformedInputFailure (makeRequest options) = true ∧
      generateTextInvokesTransport options = false)
    ∧ (∀ options : GenOptions,
      (allowedToolsOf options).any (fun t => !t.userDefined) = true →
      isMalformedInputFailure (makeRequest options) = true ∧
      generateTextInvokesTransport options = false) :=
  ⟨fun options h =>
    ⟨makeRequest_file_fails options h,
      makeRequest_fail_no_transport options (makeRequest_file_fails options h)⟩,
    fun options h =>
    ⟨makeRequest_provider_fails options h,
      makeRequest_fail_no_transport options
        (makeRequest_provider_fails options h)⟩⟩

/-- C6 counterexample: a tool set containing a provider-defined tool does
not always make request building fail — when a restrict-to-subset tool
choice filters the provider-defined tool out, `makeRequest` succeeds and the
transport is invoked. -/
theorem provider_tool_filtered_counterexample :
    filteredProviderOptions.tools.any (fun t => !t.userDefined) = true ∧
    isMalformedInputFailure (makeRequest filteredProviderOptions) = false ∧
    generateTextInvokesTransport filteredProviderOptions = true :=
  ⟨rfl, rfl, rfl⟩

/-- C6 witness: a file part in a user message, and an unfiltered
provider-defined tool, both fail request building with `MalformedInput` and
the transport is never invoked. -/
theorem malformed_input_fails_before_transport_witness :
    (isMalformedInputFailure (makeRequest fileOptions) = true ∧
      generateTextInvokesTransport fileOptions = false) ∧
    (isMalformedInputFailure (makeRequest providerToolOptions) = true ∧
      generateTextInvokesTransport providerToolOptions = false) :=
  ⟨malformed_input_fails_before_transport.1 fileOptions rfl,
    malformed_input_fails_before_transport.2 providerToolOptions rfl⟩

theorem isMalformedOutputFailure_error {α : Type} (e : AiError) :
    isMalformedOutputFailure (.error e : Except AiError α) =
      e.isMalformedOutput := by
  cases e <;> rfl

theorem proto_key_rejected (s : String) (h : argsHasProtoKey s = true) :
    ∃ msg, unsafeSecureJsonParse s = .error msg := by
  unfold argsHasProtoKey at h
  unfold unsafeSecureJsonParse
  cases hp : parseJsonVal (s.data.length + 1) s.data with
  | none => rw [hp] at h; cases h
  | some pr =>
    obtain ⟨v, rest⟩ := pr
    rw [hp] at h
    have hmem : "__proto__" ∈ jsonKeys v := of_decide_eq_true h
    have hany : (jsonKeys v).any isForbiddenKeyName = true := by
      rw [List.any_eq_true]
      exact ⟨"__proto__", hmem, by rfl⟩
    by_cases hw : (skipWs rest).isEmpty
    · simp [hw, hany]
    · simp [hw]

theorem convertToolCall_fail_kind (tc : WireToolCall) (e : AiError)
    (h : convertToolCall tc = .error e) : e.isMalformedOutput = true := by
  cases tc <;> simp only [convertToolCall] at h <;> split at h <;>
    cases h <;> rfl

theorem convertToolCall_proto_fails (tc : WireToolCall)
    (h : argsHasProtoKey tc.argString = true) :
    isMalformedOutputFailure (convertToolCall tc) = true := by
  obtain ⟨msg, hmsg⟩ := proto_key_rejected _ h
  cases tc with
  | function id name arguments =>
    simp only [WireToolCall.argString] at hmsg
    simp [convertToolCall, hmsg, isMalformedOutputFailure]
  | custom id name input =>
    simp only [WireToolCall.argString] at hmsg
    simp [convertToolCall, hmsg, isMalformedOutputFailure]

theorem convertToolCalls_proto_fails (l : List WireToolCall)
    (h : ∃ tc ∈ l, argsHasProtoKey tc.argString = true) :
    isMalformedOutputFailure (convertToolCalls l) = true := by
  induction l with
  | nil => obtain ⟨tc, hmem, _⟩ := h; cases hmem
  | cons tc rest ih =>
    cases hc : convertToolCall tc with
    | error e =>
      have hstep : convertToolCalls (tc :: rest) = .error e := by
        simp [convertToolCalls, hc]
      rw [hstep, isMalformedOutputFailure_error]
      exact convertToolCall_fail_kind tc e hc
    | ok p =>
      obtain ⟨tc2, hmem, hproto⟩ := h
      rcases List.mem_cons.mp hmem with rfl | hmem2
      · have := convertToolCall_proto_fails tc2 hproto
        rw [hc] at this
        cases this
      · have hr := ih ⟨tc2, hmem2, hproto⟩
        cases hrr : convertToolCalls rest with
        | error e2 =>
          have hstep : convertToolCalls (tc :: rest) = .error e2 := by
            simp [convertToolCalls, hc, hrr]
          rw [hrr, isMalformedOutputFailure_error] at hr
          rw [hstep, isMalformedOutputFailure_error]
          exact hr
        | ok ps => rw [hrr] at hr; cases hr

theorem makeResponse_proto_fails (response : WireResponse) (seed : Nat)
    (choice : WireChoice) (hchoice : response.choices.head? = some choice)
    (h : ∃ tc ∈ choice.message.tool_calls,
      argsHasProtoKey tc.argString = true) :
    isMalformedOutputFailure (makeResponse response seed) = true := by
  unfold makeResponse
  rw [hchoice]
  simp only
  have hc := convertToolCalls_proto_fails _ h
  cases hcc : convertToolCalls choice.message.tool_calls with
  | error e => rw [hcc] at hc; exact hc
  | ok tcParts => rw [hcc] at hc; cases hc

theorem finalizeEntries_fail_kind (m : ToolCallMap) (e : AiError)
    (h : finalizeEntries m = .error e) :
    isMalformedOutputFailure (.error e : Except AiError (List StreamPart)) =
      true := by
  induction m generalizing e with
  | nil => cases h
  | cons kv rest ih =>
    obtain ⟨k, entry⟩ := kv
    simp only [finalizeEntries] at h
    split at h
    · cases h; rfl
    · split at h
      · cases h
        exact ih _ (by assumption)
      · cases h

theorem finalizeEntries_proto_fails (m : ToolCallMap)
    (h : ∃ kv ∈ m, argsHasProtoKey kv.2.arguments = true) :
    isMalformedOutputFailure (finalizeEntries m) = true := by
  induction m with
  | nil => obtain ⟨kv, hmem, _⟩ := h; cases hmem
  | cons kv rest ih =>
    obtain ⟨k, entry⟩ := kv
    simp only [finalizeEntries]
    cases hp : unsafeSecureJsonParse entry.arguments with
    | error msg => rfl
    | ok params =>
      obtain ⟨kv2, hmem, hproto⟩ := h
      rcases List.mem_cons.mp hmem with rfl | hmem2
      · obtain ⟨msg, hmsg⟩ := proto_key_rejected _ hproto
        rw [hp] at hmsg
        cases hmsg
      · have hr := ih ⟨kv2, hmem2, hproto⟩
        cases hrr : finalizeEntries rest with
        | error e2 => rw [hrr] at hr; exact hr
        | ok restParts => rw [hrr] at hr; cases hr

theorem processChunk_proto_fails (s : StreamState)
    (chunk : ChatCompletionChunk) (choice : ChunkChoice)
    (fr : WireFinishReason) (hchoice : chunk.choices.head? = some choice)
    (hdeltas : choice.delta.tool_calls = [])
    (hfr : choice.finish_reason = some fr)
    (h : ∃ kv ∈ s.activeToolCalls, argsHasProtoKey kv.2.arguments = true) :
    isMalformedOutputFailure (processChunk s chunk) = true := by
  unfold processChunk
  rw [hchoice]
  simp only [hdeltas, hfr, processToolCallDeltas]
  have hc := finalizeEntries_proto_fails s.activeToolCalls h
  cases hcc : finalizeEntries s.activeToolCalls with
  | error e =>
    simp only [hcc]
    rw [isMalformedOutputFailure_error]
    rw [hcc, isMalformedOutputFailure_error] at hc
    exact hc
  | ok finalParts => rw [hcc] at hc; cases hc

/-- C7: a tool-call arguments string containing `__proto__` as an object
key makes the response translation fail with `MalformedOutput` — for a
non-streaming response via `makeResponse`, and for an accumulated stream
buffer via the terminal-chunk finalization of the stream accumulator. -/
theorem proto_key_arguments_rejected :
    (∀ (response : WireResponse) (seed : Nat) (choice : WireChoice),
      response.choices.head? = some choice →
      (∃ tc ∈ choice.message.tool_calls,
        argsHasProtoKey tc.argString = true) →
      isMalformedOutputFailure (makeResponse response seed) = true)
    ∧ (∀ (s : StreamState) (chunk : ChatCompletionChunk)
        (choice : ChunkChoice) (fr : WireFinishReason),
      chunk.choices.head? = some choice →
      choice.delta.tool_calls = [] →
      choice.finish_reason = some fr →
      (∃ kv ∈ s.activeToolCalls, argsHasProtoKey kv.2.arguments = true) →
      isMalformedOutputFailure (processChunk s chunk) = true) :=
  ⟨fun response seed choice h1 h2 =>
      makeResponse_proto_fails response seed choice h1 h2,
    fun s chunk choice fr h1 h2 h3 h4 =>
      processChunk_proto_fails s chunk choice fr h1 h2 h3 h4⟩

/-- C7 witness: the argument string with a `__proto__` key makes both the
non-streaming translation and the stream finalization fail with
`MalformedOutput`. -/
theorem proto_key_arguments_rejected_witness :
    isMalformedOutputFailure (makeResponse protoResponse 0) = true ∧
    isMalformedOutputFailure (processChunk protoStreamState sampleFinishChunk)
      = true :=
  ⟨proto_key_arguments_rejected.1 protoResponse 0 protoChoice rfl
      ⟨protoWireToolCall, List.mem_singleton.mpr rfl, rfl⟩,
    proto_key_arguments_rejected.2 protoStreamState sampleFinishChunk
      sampleFinishChunkChoice .stop rfl rfl rfl
      ⟨(0, protoEntry), List.mem_singleton.mpr rfl, rfl⟩⟩

/-- C8: the decoded chunk stream delivered to the accumulator is exactly the
prefix of the input up to and including the first chunk in which some choice
has a non-null `finish_reason` (the whole input when no chunk has one), and
it contains at most one terminal chunk. -/
theorem stream_truncated_at_first_finish (chunks : List ChatCompletionChunk) :
    createChatCompletionStreamChunks chunks =
      chunks.take (chunks.findIdx chunkHasFinish + 1)
    ∧ (createChatCompletionStreamChunks chunks).countP chunkHasFinish ≤ 1 := by
  induction chunks with
  | nil => exact ⟨rfl, by simp [createChatCompletionStreamChunks, takeUntil]⟩
  | cons c rest ih =>
    unfold createChatCompletionStreamChunks at ih ⊢
    cases hcf : chunkHasFinish c with
    | true =>
      constructor
      · simp [takeUntil, hcf, List.findIdx_cons]
      · simp [takeUntil, hcf, List.countP_cons]
    | false =>
      constructor
      · simp only [takeUntil, hcf, Bool.false_eq_true, if_false,
          List.findIdx_cons, cond_false]
        rw [ih.1]
        rfl
      · simp only [takeUntil, hcf, Bool.false_eq_true, if_false,
          List.countP_cons, cond_false]
        simpa [hcf] using ih.2

theorem convertAiTools_all_user (l : List AiTool)
    (h : ∀ t ∈ l, t.userDefined = true) :
    convertAiTools l = .ok (l.map toWireTool) := by
  induction l with
  | nil => rfl
  | cons t rest ih =>
    have ht := h t (List.mem_cons_self t rest)
    simp [convertAiTools, ht, ih (fun t2 ht2 => h t2 (List.mem_cons_of_mem t ht2))]

/-- C9: for a non-empty set of user-defined tools, the tool-choice
translation behaves exactly as specified: a restrict-to-subset (oneOf)
policy filters the wire tool list to the named subset and sets `tool_choice`
to `required` or `auto` according to its mode; a force-specific-tool policy
emits a function reference; `none` and `required` pass through literally;
and `auto` leaves the `tool_choice` field omitted. -/
theorem tool_choice_translation (tools : List AiTool) (hne : tools ≠ [])
    (hud : ∀ t ∈ tools, t.userDefined = true) :
    (∀ (names : List String) (mode : ToolChoiceMode),
      prepareTools tools (.oneOf names mode) =
        .ok (some ((tools.filter (fun t => names.contains t.name)).map
          toWireTool),
          some (if mode = ToolChoiceMode.required then WireToolChoice.required
            else WireToolChoice.auto)))
    ∧ (∀ name : String, prepareTools tools (.tool name) =
        .ok (some (tools.map toWireTool), some (.function name)))
    ∧ prepareTools tools .none = .ok (some (tools.map toWireTool), some .none)
    ∧ prepareTools tools .required =
        .ok (some (tools.map toWireTool), some .required)
    ∧ prepareTools tools .auto = .ok (some (tools.map toWireTool), none) := by
  have hnemp : tools.isEmpty = false := by
    cases tools with
    | nil => exact absurd rfl hne
    | cons t rest => rfl
  refine ⟨fun names mode => ?_, fun name => ?_, ?_, ?_, ?_⟩ <;>
    · unfold prepareTools
      rw [hnemp]
      simp only [Bool.false_eq_true, if_false, allowedToolsFor]
      first
        | rw [convertAiTools_all_user tools hud]
        | rw [convertAiTools_all_user _
            (fun t ht => hud t (List.mem_of_mem_filter ht))]
      try rfl

/-- C9 witness: one user-defined tool under the policies `auto`, force-tool,
and restrict-to-subset with mode `required`. -/
theorem tool_choice_translation_witness :
    prepareTools [toolUtil] .auto = .ok (some [toWireTool toolUtil], none) ∧
    prepareTools [toolUtil] (.tool "util") =
      .ok (some [toWireTool toolUtil], some (.function "util")) ∧
    prepareTools [toolUtil] (.oneOf ["util"] .required) =
      .ok (some [toWireTool toolUtil], some .required) :=
  have h := tool_choice_translation [toolUtil] (List.cons_ne_nil toolUtil [])
    (fun t ht => by rw [List.mem_singleton] at ht; rw [ht]; rfl)
  ⟨h.2.2.2.2, h.2.1 "util", h.1 ["util"] .required⟩

/-- C10: a `tool_calls` delta that carries no id, for an index with no
registered accumulator entry, produces no stream event and leaves the
accumulator map unchanged — its arguments fragment is silently discarded. -/
theorem orphan_delta_ignored (m : ToolCallMap) (d : ToolCallDelta)
    (hid : d.id = none) (hmem : mapGet m d.index = none) :
    processToolCallDelta m d = (m, []) := by
  unfold processToolCallDelta
  rw [hid]
  simp only [optTruthy, Bool.false_eq_true, if_false]
  simp [hmem]

/-- C10 witness: a delta with no id and an arguments fragment, fed to the
empty accumulator, emits nothing and changes nothing. -/
theorem orphan_delta_ignored_witness :
    processToolCallDelta [] orphanDelta = ([], []) :=
  orphan_delta_ignored [] orphanDelta rfl rfl

end Ariadne
